import Mathlib

/-!
Shallow embedding of the instance-identity / target-resolution / ownership-guard
core of the ai-shell repository (package `internal/aishell`), together with
proofs of the specification claims about it.

Go strings are modelled as `List Char`; UTF-8 byte-wise lexicographic order on
Go strings coincides with code-point lexicographic order, so comparisons are
modelled on `Char` code points.  External effects (the filesystem calls made by
`CanonicalWorkdir` and the container-runtime calls made through `Docker`) are
modelled as explicit environment records whose fields return `Except`.
-/

namespace AiShell

/-- Go `string`, modelled as its sequence of Unicode code points. -/
abbrev Str := List Char

/-- Go `unicode.IsSpace`: the Unicode White_Space property (which includes
Latin-1 `\t \n \v \f \r`, space, U+0085 and U+00A0). -/
def goIsSpace (c : Char) : Bool :=
  let n := c.toNat
  n == 9 || n == 10 || n == 11 || n == 12 || n == 13 || n == 32 ||
  n == 133 || n == 160 || n == 0x1680 || (0x2000 ≤ n && n ≤ 0x200A) ||
  n == 0x2028 || n == 0x2029 || n == 0x202F || n == 0x205F || n == 0x3000

/-- Go `strings.TrimSpace`: drop leading and trailing White_Space code points. -/
def trimSpace (s : Str) : Str :=
  ((s.dropWhile goIsSpace).reverse.dropWhile goIsSpace).reverse

/-- Three-way byte-wise comparison of Go strings (UTF-8 byte order equals
code-point order, so this is Go's `<` / `>` on strings). -/
def strCmp : Str → Str → Ordering
  | [], [] => .eq
  | [], _ :: _ => .lt
  | _ :: _, [] => .gt
  | a :: as, b :: bs =>
    if a < b then .lt else if b < a then .gt else strCmp as bs

/-- Go `s <= t` on strings (used to state sortedness of `sort.Strings` output). -/
def strLe (a b : Str) : Prop := strCmp a b ≠ Ordering.gt

instance : DecidableRel strLe := fun a b =>
  inferInstanceAs (Decidable (strCmp a b ≠ Ordering.gt))

/-- Go `fmt`'s `%q` verb applied to a string, modelled as plain double-quoting.
(Go additionally escapes quotes and non-printable characters inside the string;
no string occurring in the claims needs escaping.) -/
def goQuote (s : Str) : Str := '"' :: (s ++ ['"'])

/-- `constants.go`: `LabelNS = "com.nimzi.ai-shell"`. -/
def LabelNS : Str := "com.nimzi.ai-shell".toList

/-- `constants.go`: `LabelManaged = LabelNS + ".managed"`. -/
def LabelManaged : Str := LabelNS ++ ".managed".toList

/-- `constants.go`: `LabelInstance = LabelNS + ".instance"`. -/
def LabelInstance : Str := LabelNS ++ ".instance".toList

/-- `constants.go`: `LabelVolume = LabelNS + ".volume"`. -/
def LabelVolume : Str := LabelNS ++ ".volume".toList

/-- `selector.go`: the `ManagedInstance` record. -/
structure ManagedInstance where
  Workdir : Str
  InstanceID : Str
  Container : Str
  Status : Str
  Image : Str
  Volume : Str
deriving DecidableEq

/-- Result of `os.Stat`, restricted to the one field the code reads. -/
structure StatInfo where
  isDir : Bool
deriving DecidableEq

/-- The operating-system calls made by `CanonicalWorkdir` / `expandUser`
(`os.Getwd`, `os.UserHomeDir`, `filepath.Abs`, `filepath.EvalSymlinks`,
`os.Stat`, `filepath.Join`), modelled as an explicit environment. -/
structure OSEnv where
  getwd : Except Str Str
  userHomeDir : Except Str Str
  abs : Str → Except Str Str
  evalSymlinks : Str → Except Str Str
  stat : Str → Except Str StatInfo
  joinPath : Str → Str → Str

/-- `base_image_test.go` (second embedded file): `expandUser`.  Note that when
`os.UserHomeDir` fails the Go code returns the input path unchanged. -/
def expandUser (env : OSEnv) (p : Str) : Str :=
  if p = [] then p
  else if p = "~".toList ∨ List.isPrefixOf "~/".toList p then
    match env.userHomeDir with
    | .error _ => p
    | .ok home => if p = "~".toList then home else env.joinPath home (p.drop 2)
  else p

/-- The abs → symlink-resolution → stat tail of `CanonicalWorkdir`, applied to
an already-expanded path. -/
def canonFrom (env : OSEnv) (p : Str) : Except Str Str :=
  match env.abs p with
  | .error e => .error e
  | .ok abs =>
    match env.evalSymlinks abs with
    | .error e => .error e
    | .ok real =>
      match env.stat real with
      | .error e => .error e
      | .ok st =>
        if !st.isDir then .error ("workdir is not a directory: ".toList ++ real)
        else .ok real

/-- `base_image_test.go` (second embedded file): `CanonicalWorkdir`. -/
def CanonicalWorkdir (env : OSEnv) (p : Str) : Except Str Str :=
  match (if p = [] then env.getwd else .ok p) with
  | .error e => .error e
  | .ok q => canonFrom env (expandUser env q)

/-- The candidate projection (`cand` struct) used by `formatCandidates`. -/
structure cand where
  iid : Str
  container : Str
  workdir : Str
deriving DecidableEq

/-- Projection of a `ManagedInstance` to the fields `formatCandidates` prints. -/
def toCand (c : ManagedInstance) : cand :=
  { iid := c.InstanceID, container := c.Container, workdir := c.Workdir }

/-- Three-way comparison implementing the `sort.Slice` comparator in
`formatCandidates`: by container name, then instance id, then workdir. -/
def candCmp (a b : cand) : Ordering :=
  match strCmp a.container b.container with
  | .eq =>
    match strCmp a.iid b.iid with
    | .eq => strCmp a.workdir b.workdir
    | o => o
  | o => o

/-- The (total, transitive) sort order used by `formatCandidates`. -/
def candLe (a b : cand) : Prop := candCmp a b ≠ Ordering.gt

instance : DecidableRel candLe := fun a b =>
  inferInstanceAs (Decidable (candCmp a b ≠ Ordering.gt))

/-- Go `strings.TrimRight(s, "\n")`: drop trailing newlines. -/
def trimNlEnd (s : Str) : Str :=
  (s.reverse.dropWhile (fun c => c == '\n')).reverse

/-- One line of `formatCandidates` output (the loop body writing one candidate). -/
def renderCand (c : cand) : Str :=
  "  - ".toList
    ++ (if c.iid = [] then [] else c.iid ++ "  ".toList)
    ++ c.container
    ++ (if c.workdir = [] then [] else "  ".toList ++ c.workdir)
    ++ "\n".toList

/-- `selector.go`: `formatCandidates` — project each candidate, sort by
(container, iid, workdir) with `sort.Slice`, render one line per candidate,
and trim the trailing newline. -/
def formatCandidates (candidates : List ManagedInstance) : Str :=
  trimNlEnd (((List.insertionSort candLe (candidates.map toCand)).map renderCand).flatten)

/-- `selector.go`: `ambiguousTargetErr`. -/
def ambiguousTargetErr (target : Str) (candidates : List ManagedInstance) : Str :=
  "ambiguous target ".toList ++ goQuote target ++ "; candidates:\n".toList
    ++ formatCandidates candidates

/-- The `"target must not be empty"` error message. -/
def emptyTargetMsg : Str := "target must not be empty".toList

/-- The `"no managed container matches target %q (run: ai-shell ls)"` message. -/
def noMatchMsg (target : Str) : Str :=
  "no managed container matches target ".toList ++ goQuote target
    ++ " (run: ai-shell ls)".toList

/-- `selector.go`: `looksLikePath` — contains a separator, or starts with `.`
or `~`. -/
def looksLikePath (s : Str) : Bool :=
  s.contains '/' || List.isPrefixOf ".".toList s || List.isPrefixOf "~".toList s

/-- The workdir strategy 5 compares against: the canonicalized target, falling
back to the literal target when canonicalization fails. -/
def targetWd (env : OSEnv) (target : Str) : Str :=
  match CanonicalWorkdir env target with
  | .ok wd => wd
  | .error _ => target

/-- One strategy step of `matchTarget`: exactly one match wins, more than one
is ambiguous, none falls through to the next strategy. -/
def step (target : Str) (m : List ManagedInstance) (next : Except Str ManagedInstance) :
    Except Str ManagedInstance :=
  match m with
  | [] => next
  | [x] => .ok x
  | xs => .error (ambiguousTargetErr target xs)

/-- `selector.go`: `matchTarget` — trim the target, reject empty, then try the
five match strategies in order. -/
def matchTarget (env : OSEnv) (target0 : Str) (instances : List ManagedInstance) :
    Except Str ManagedInstance :=
  let target := trimSpace target0
  if target = [] then .error emptyTargetMsg
  else
    step target (instances.filter fun i => i.Container == target)
      (step target (instances.filter fun i => i.InstanceID == target)
        (step target
          (instances.filter fun i => !(i.InstanceID == []) && List.isPrefixOf target i.InstanceID)
          (step target (instances.filter fun i => List.isPrefixOf target i.Container)
            (if looksLikePath target then
              step target (instances.filter fun i => i.Workdir == targetWd env target)
                (.error (noMatchMsg target))
            else .error (noMatchMsg target)))))

/-- The match set of each strategy (numbered 1–5 as in the spec), over the full
instance list; strategy 5 matches nothing when the target is not path-like. -/
def strategyMatches (env : OSEnv) (t : Str) (instances : List ManagedInstance) :
    Nat → List ManagedInstance
  | 1 => instances.filter fun i => i.Container == t
  | 2 => instances.filter fun i => i.InstanceID == t
  | 3 => instances.filter fun i => !(i.InstanceID == []) && List.isPrefixOf t i.InstanceID
  | 4 => instances.filter fun i => List.isPrefixOf t i.Container
  | 5 =>
    if looksLikePath t then instances.filter fun i => i.Workdir == targetWd env t
    else []
  | _ => []

/-- Modelled from the spec's words (§4.4): the first strategy yielding exactly
one match wins; more than one is a terminal `Ambiguous`; none of the listed
strategies matching is `NotFound`. -/
def firstDeciding (t : Str) : List (List ManagedInstance) → Except Str ManagedInstance
  | [] => .error (noMatchMsg t)
  | ms :: rest =>
    match ms with
    | [] => firstDeciding t rest
    | [m] => .ok m
    | xs => .error (ambiguousTargetErr t xs)

/-- Modelled from the spec's words (§4.4): apply the five strategies in the
fixed order over the full instance list. -/
def MatchTargetSpec (env : OSEnv) (t : Str) (instances : List ManagedInstance) :
    Except Str ManagedInstance :=
  firstDeciding t
    [strategyMatches env t instances 1, strategyMatches env t instances 2,
     strategyMatches env t instances 3, strategyMatches env t instances 4,
     strategyMatches env t instances 5]

/-- The inner loop body of `uniquePrefixLen` for one candidate length `n`: Go
iterates over the ids keeping a `seen` count map, failing on an id shorter than
`n` or on a repeated prefix. -/
def uniqueAt (ids : List Str) (n : Nat) (seen : List Str) : Bool :=
  match ids with
  | [] => true
  | id :: rest =>
    if id.length < n then false
    else if id.take n ∈ seen then false
    else uniqueAt rest n (id.take n :: seen)

/-- The `for n := min; n <= max; n++` loop of `uniquePrefixLen`, with the
remaining iteration count made explicit. -/
def uplLoop (ids : List Str) : Nat → Nat → Int
  | _, 0 => 0
  | n, k + 1 => if uniqueAt ids n [] then (n : Int) else uplLoop ids (n + 1) k

/-- `selector.go`: `uniquePrefixLen` (Go `int` arguments modelled as `Int`). -/
def uniquePrefixLen (ids : List Str) (min max : Int) : Int :=
  if min < 1 ∨ max < min then 0
  else uplLoop ids min.toNat (max.toNat + 1 - min.toNat)

/-- Specification-side predicate: every id has length at least `n` and the
length-`n` prefixes are pairwise distinct. -/
def PrefixesOk (ids : List Str) (n : Nat) : Prop :=
  (∀ id ∈ ids, n ≤ id.length) ∧ (ids.map (List.take n)).Nodup

instance (ids : List Str) (n : Nat) : Decidable (PrefixesOk ids n) := by
  unfold PrefixesOk; infer_instance

/-- `docker.go`: one entry of the `Mounts` array of `docker inspect` output
(the JSON field `Type` is called `mountType` here because `Type` is reserved). -/
structure Mount where
  mountType : Str
  Source : Str
  Destination : Str
deriving DecidableEq

/-- `docker.go`: the `Config` part of `InspectContainer`.  A Go `nil` label map
is `none`; lookups in it yield the empty string. -/
structure InspectConfig where
  Image : Str
  Labels : Option (List (Str × Str))
  Env : List Str
deriving DecidableEq

/-- `docker.go`: the `State` part of `InspectContainer`. -/
structure InspectState where
  Status : Str
deriving DecidableEq

/-- `docker.go`: the `InspectContainer` record parsed from `docker inspect`. -/
structure InspectContainer where
  Config : InspectConfig
  State : InspectState
  Mounts : List Mount
deriving DecidableEq

/-- `docker.go`: `(ic InspectContainer) Workdir()` — the host source path of the
first mount with destination `/work` and type `bind`, or empty. -/
def InspectContainer.Workdir (ic : InspectContainer) : Str :=
  match ic.Mounts.find? (fun m => m.Destination == "/work".toList && m.mountType == "bind".toList) with
  | some m => m.Source
  | none => []

/-- Go map lookup `labels[k]` on a possibly-`nil` string map: the empty string
when the map is `nil` or the key is absent. -/
def lookupLabel (labels : Option (List (Str × Str))) (k : Str) : Str :=
  match labels with
  | none => []
  | some l =>
    match l.find? (fun kv => kv.1 == k) with
    | some kv => kv.2
    | none => []

/-- The two container-runtime queries this core performs (`docker.go`:
`PSNamesByLabel` and `InspectContainer`), modelled as an environment record. -/
structure Docker where
  psNamesByLabel : Str → Str → Except Str (List Str)
  inspectContainer : Str → Except Str InspectContainer

/-- The `ManagedInstance` constructed by the loop body of
`listManagedInstances` for one successfully inspected container. -/
def mkManagedInstance (name : Str) (info : InspectContainer) : ManagedInstance :=
  { Workdir := info.Workdir
    InstanceID := lookupLabel info.Config.Labels LabelInstance
    Container := name
    Status := info.State.Status
    Image := info.Config.Image
    Volume := lookupLabel info.Config.Labels LabelVolume }

/-- The per-name loop of `listManagedInstances`: inspect each container,
skipping (`continue`) any whose inspection fails. -/
def listLoop (d : Docker) : List Str → List ManagedInstance
  | [] => []
  | name :: rest =>
    match d.inspectContainer name with
    | .error _ => listLoop d rest
    | .ok info => mkManagedInstance name info :: listLoop d rest

/-- Go `sort.Strings` (ascending byte-wise lexicographic order). -/
def sortStrings (names : List Str) : List Str := List.insertionSort strLe names

/-- `selector.go`: `listManagedInstances` — query names by the managed label,
sort them, and inspect each, skipping inspection failures. -/
def listManagedInstances (d : Docker) : Except Str (List ManagedInstance) :=
  match d.psNamesByLabel LabelManaged "true".toList with
  | .error e => .error e
  | .ok names => .ok (listLoop d (sortStrings names))

/-- The entry `listManagedInstances` produces for one name: `some` when the
inspection succeeds, `none` when it is skipped. -/
def inspectEntry (d : Docker) (name : Str) : Option ManagedInstance :=
  match d.inspectContainer name with
  | .ok info => some (mkManagedInstance name info)
  | .error _ => none

/-- The `NotManaged` refusal message of `requireManaged`. -/
def notManagedMsg (container : Str) : Str :=
  "refusing: container ".toList ++ goQuote container
    ++ " is not managed by ai-shell (missing label ".toList ++ LabelManaged
    ++ "=true)".toList

/-- The `WorkdirMismatch` refusal message of `requireManaged`. -/
def mismatchMsg (container expected got : Str) : Str :=
  "refusing: container ".toList ++ goQuote container
    ++ " workdir mismatch\nexpected: ".toList ++ expected
    ++ "\nfound:    ".toList ++ got

/-- `cli.go`: `requireManaged` — inspect the container, require the managed
label to be exactly `"true"`, then require the workdir discovered from the
`/work` bind mount to equal the expected one. -/
def requireManaged (d : Docker) (container expectedWorkdir : Str) : Except Str Unit :=
  match d.inspectContainer container with
  | .error e => .error e
  | .ok info =>
    if info.Config.Labels.isNone || !(lookupLabel info.Config.Labels LabelManaged == "true".toList)
    then .error (notManagedMsg container)
    else if !(info.Workdir == expectedWorkdir)
    then .error (mismatchMsg container expectedWorkdir info.Workdir)
    else .ok ()

/-- Truncate to a 32-bit word. -/
def w32 (n : Nat) : Nat := n % 4294967296

/-- 32-bit modular addition. -/
def wadd (a b : Nat) : Nat := (a + b) % 4294967296

/-- 32-bit right rotation. -/
def rotr32 (n x : Nat) : Nat := w32 ((x >>> n) ||| (x <<< (32 - n)))

/-- SHA-256 Σ₀. -/
def bigSigma0 (x : Nat) : Nat := rotr32 2 x ^^^ rotr32 13 x ^^^ rotr32 22 x

/-- SHA-256 Σ₁. -/
def bigSigma1 (x : Nat) : Nat := rotr32 6 x ^^^ rotr32 11 x ^^^ rotr32 25 x

/-- SHA-256 σ₀. -/
def smallSigma0 (x : Nat) : Nat := rotr32 7 x ^^^ rotr32 18 x ^^^ (x >>> 3)

/-- SHA-256 σ₁. -/
def smallSigma1 (x : Nat) : Nat := rotr32 17 x ^^^ rotr32 19 x ^^^ (x >>> 10)

/-- SHA-256 Ch (the complement is XOR with the all-ones 32-bit word). -/
def chF (x y z : Nat) : Nat := (x &&& y) ^^^ ((x ^^^ 4294967295) &&& z)

/-- SHA-256 Maj. -/
def majF (x y z : Nat) : Nat := (x &&& y) ^^^ (x &&& z) ^^^ (y &&& z)

/-- The 64 SHA-256 round constants. -/
def sha256K : List Nat :=
  [1116352408, 1899447441, 3049323471, 3921009573, 961987163,
   1508970993, 2453635748, 2870763221, 3624381080, 310598401,
   607225278, 1426881987, 1925078388, 2162078206, 2614888103,
   3248222580, 3835390401, 4022224774, 264347078, 604807628,
   770255983, 1249150122, 1555081692, 1996064986, 2554220882,
   2821834349, 2952996808, 3210313671, 3336571891, 3584528711,
   113926993, 338241895, 666307205, 773529912, 1294757372,
   1396182291, 1695183700, 1986661051, 2177026350, 2456956037,
   2730485921, 2820302411, 3259730800, 3345764771, 3516065817,
   3600352804, 4094571909, 275423344, 430227734, 506948616,
   659060556, 883997877, 958139571, 1322822218, 1537002063,
   1747873779, 1955562222, 2024104815, 2227730452, 2361852424,
   2428436474, 2756734187, 3204031479, 3329325298]

/-- The SHA-256 initial hash value. -/
def sha256H0 : List Nat :=
  [1779033703, 3144134277, 1013904242, 2773480762,
   1359893119, 2600822924, 528734635, 1541459225]

/-- Append the next word of the SHA-256 message schedule. -/
def scheduleStep (w : List Nat) : List Nat :=
  let t := w.length
  w ++ [w32 (smallSigma1 (w.getD (t - 2) 0) + w.getD (t - 7) 0
    + smallSigma0 (w.getD (t - 15) 0) + w.getD (t - 16) 0)]

/-- Extend the 16 message words to the full 64-word schedule (`k` more words). -/
def buildSchedule (w : List Nat) : Nat → List Nat
  | 0 => w
  | k + 1 => buildSchedule (scheduleStep w) k

/-- One SHA-256 round on the working state `[a,b,c,d,e,f,g,h]` with one
round-constant/schedule-word pair. -/
def roundStep (st : List Nat) (kw : Nat × Nat) : List Nat :=
  let a := st.getD 0 0
  let b := st.getD 1 0
  let c := st.getD 2 0
  let d := st.getD 3 0
  let e := st.getD 4 0
  let f := st.getD 5 0
  let g := st.getD 6 0
  let h := st.getD 7 0
  let t1 := w32 (h + bigSigma1 e + chF e f g + kw.1 + kw.2)
  let t2 := w32 (bigSigma0 a + majF a b c)
  [wadd t1 t2, a, b, c, wadd d t1, e, f, g]

/-- Combine four big-endian bytes into 32-bit words. -/
def bytesToWords : List Nat → List Nat
  | b0 :: b1 :: b2 :: b3 :: rest =>
    (((b0 * 256 + b1) * 256 + b2) * 256 + b3) :: bytesToWords rest
  | _ => []

/-- SHA-256 compression of one 16-word block into the hash state. -/
def compress (H : List Nat) (block : List Nat) : List Nat :=
  let w := buildSchedule block 48
  let st := (sha256K.zip w).foldl roundStep H
  List.zipWith wadd H st

/-- The 8-byte big-endian encoding of the 64-bit message bit length. -/
def be64 (n : Nat) : List Nat :=
  [n / 2 ^ 56 % 256, n / 2 ^ 48 % 256, n / 2 ^ 40 % 256, n / 2 ^ 32 % 256,
   n / 2 ^ 24 % 256, n / 2 ^ 16 % 256, n / 2 ^ 8 % 256, n % 256]

/-- SHA-256 padding: `0x80`, zeros to 56 mod 64, then the bit length. -/
def padMessage (msg : List Nat) : List Nat :=
  msg ++ (128 :: List.replicate ((119 - msg.length % 64) % 64) 0)
    ++ be64 (8 * msg.length)

/-- Split a byte list into 64-byte chunks (fuel-driven so it reduces in the
kernel; fuel equal to the length always suffices). -/
def chunk64F : Nat → List Nat → List (List Nat)
  | 0, _ => []
  | _, [] => []
  | fuel + 1, l => l.take 64 :: chunk64F fuel (l.drop 64)

/-- Split a byte list into 64-byte chunks. -/
def chunk64 (l : List Nat) : List (List Nat) := chunk64F l.length l

/-- Big-endian bytes of one 32-bit word. -/
def wordToBytes (w : Nat) : List Nat :=
  [w / 2 ^ 24 % 256, w / 2 ^ 16 % 256, w / 2 ^ 8 % 256, w % 256]

/-- SHA-256 of a byte sequence (Go `crypto/sha256.Sum256`), as 32 bytes. -/
def sha256 (msg : List Nat) : List Nat :=
  let blocks := chunk64 (padMessage msg)
  let final := blocks.foldl (fun H b => compress H (bytesToWords b)) sha256H0
  (final.map wordToBytes).flatten

/-- One lowercase hex digit. -/
def hexDigit (n : Nat) : Char := "0123456789abcdef".toList.getD n 'x'

/-- Go `encoding/hex.EncodeToString`: two lowercase hex digits per byte. -/
def hexEncode : List Nat → Str
  | [] => []
  | b :: rest => hexDigit (b / 16) :: hexDigit (b % 16) :: hexEncode rest

/-- The UTF-8 encoding of one code point. -/
def utf8Char (c : Char) : List Nat :=
  let n := c.toNat
  if n < 0x80 then [n]
  else if n < 0x800 then
    [0xC0 ||| (n >>> 6), 0x80 ||| (n &&& 0x3F)]
  else if n < 0x10000 then
    [0xE0 ||| (n >>> 12), 0x80 ||| ((n >>> 6) &&& 0x3F), 0x80 ||| (n &&& 0x3F)]
  else
    [0xF0 ||| (n >>> 18), 0x80 ||| ((n >>> 12) &&& 0x3F),
     0x80 ||| ((n >>> 6) &&& 0x3F), 0x80 ||| (n &&& 0x3F)]

/-- The UTF-8 bytes of a Go string. -/
def utf8Encode (s : Str) : List Nat := (s.map utf8Char).flatten

/-- `base_image_test.go` (second embedded file): `InstanceID` — the first 10
characters of the lowercase hex encoding of the SHA-256 digest of the workdir
string's UTF-8 bytes. -/
def InstanceID (workdir : Str) : Str :=
  (hexEncode (sha256 (utf8Encode workdir))).take 10


/-- Test fixture: a managed instance for workdir `/a` (mirrors the data of the
repository's selector tests). -/
def instA : ManagedInstance :=
  { Workdir := "/a".toList, InstanceID := "a1b2c3d4e5".toList,
    Container := "ai-agent-shell-a1b2c3d4e5".toList, Status := "running".toList,
    Image := [], Volume := [] }

/-- Test fixture: a managed instance for workdir `/b`. -/
def instB : ManagedInstance :=
  { Workdir := "/b".toList, InstanceID := "a1b2ffffaa".toList,
    Container := "ai-agent-shell-a1b2ffffaa".toList, Status := "exited".toList,
    Image := [], Volume := [] }

/-- Test fixture: an OS environment on which every call fails (so strategy-5
canonicalization falls back to the literal target). -/
def noEnv : OSEnv :=
  { getwd := .error [], userHomeDir := .error [],
    abs := fun _ => .error [], evalSymlinks := fun _ => .error [],
    stat := fun _ => .error [], joinPath := fun a b => a ++ b }

/-- Test fixture: an OS environment whose home lookup fails but whose
filesystem contains a directory literally named `~/proj` under the cwd. -/
def c6Env : OSEnv :=
  { getwd := .ok "/cwd".toList, userHomeDir := .error "no home directory".toList,
    abs := fun p => .ok ("/cwd/".toList ++ p), evalSymlinks := fun p => .ok p,
    stat := fun _ => .ok { isDir := true }, joinPath := fun a b => a ++ ('/' :: b) }

/-- Test fixture: inspect result of a correctly-labelled container whose
`/work` bind mount points at `/a`. -/
def infoA : InspectContainer :=
  { Config := { Image := "img".toList,
                Labels := some [(LabelManaged, "true".toList), (LabelInstance, "a1b2c3d4e5".toList)],
                Env := [] }
    State := { Status := "running".toList }
    Mounts := [{ mountType := "bind".toList, Source := "/a".toList, Destination := "/work".toList }] }

/-- Test fixture: inspect result of a managed container with no `/work` bind
mount at all. -/
def infoNoWork : InspectContainer :=
  { Config := { Image := [], Labels := some [(LabelManaged, "true".toList)], Env := [] }
    State := { Status := "exited".toList }
    Mounts := [{ mountType := "volume".toList, Source := "v".toList, Destination := "/home".toList }] }

/-- Test fixture: a runtime with one inspectable container `c1` (= `infoA`). -/
def dockerA : Docker :=
  { psNamesByLabel := fun _ _ => .ok ["c1".toList],
    inspectContainer := fun n =>
      if n = "c1".toList then .ok infoA else .error "no such container".toList }

/-- Test fixture: a runtime listing `c2` and `c1` where inspecting `c2` fails. -/
def dockerB : Docker :=
  { psNamesByLabel := fun _ _ => .ok ["c2".toList, "c1".toList],
    inspectContainer := fun n =>
      if n = "c1".toList then .ok infoA else .error "broken".toList }

/-- Test fixture: a runtime whose container `c9` has no `/work` bind mount. -/
def dockerC : Docker :=
  { psNamesByLabel := fun _ _ => .ok ["c9".toList],
    inspectContainer := fun n =>
      if n = "c9".toList then .ok infoNoWork else .error "no such container".toList }


theorem strCmp_refl (a : Str) : strCmp a a = .eq := by
  induction a with
  | nil => rfl
  | cons x xs ih => simp [strCmp, ih]

theorem strCmp_eq_iff : ∀ a b : Str, strCmp a b = .eq ↔ a = b := by
  intro a
  induction a with
  | nil => intro b; cases b <;> simp [strCmp]
  | cons x xs ih =>
    intro b
    cases b with
    | nil => simp [strCmp]
    | cons y ys =>
      simp only [strCmp]
      split
      · constructor
        · intro h; exact absurd h (by simp)
        · rintro ⟨rfl, rfl⟩; exact absurd (by assumption) (lt_irrefl x)
      · split
        · constructor
          · intro h; exact absurd h (by simp)
          · rintro ⟨rfl, rfl⟩; exact absurd (by assumption) (lt_irrefl x)
        · have hxy : x = y := le_antisymm (not_lt.mp (by assumption)) (not_lt.mp (by assumption))
          simp [hxy, ih ys]

theorem strCmp_swap : ∀ a b : Str, strCmp b a = (strCmp a b).swap := by
  intro a
  induction a with
  | nil => intro b; cases b <;> simp [strCmp, Ordering.swap]
  | cons x xs ih =>
    intro b
    cases b with
    | nil => simp [strCmp, Ordering.swap]
    | cons y ys =>
      simp only [strCmp]
      rcases lt_trichotomy x y with h | h | h
      · simp [h, lt_asymm h, Ordering.swap]
      · subst h; simp [lt_irrefl, ih ys]
      · simp [h, lt_asymm h, Ordering.swap]

theorem strCmp_lt_trans :
    ∀ a b c : Str, strCmp a b = .lt → strCmp b c = .lt → strCmp a c = .lt := by
  intro a
  induction a with
  | nil =>
    intro b c hab hbc
    cases b with
    | nil => exact hbc
    | cons y ys =>
      cases c with
      | nil => simp [strCmp] at hbc
      | cons z zs => rfl
  | cons x xs ih =>
    intro b c hab hbc
    cases b with
    | nil => simp [strCmp] at hab
    | cons y ys =>
      cases c with
      | nil => simp [strCmp] at hbc
      | cons z zs =>
        simp only [strCmp] at hab hbc ⊢
        rcases lt_trichotomy x y with hxy | hxy | hxy
        · rcases lt_trichotomy y z with hyz | hyz | hyz
          · simp [lt_trans hxy hyz]
          · subst hyz; simp [hxy]
          · simp [hyz, lt_asymm hyz] at hbc
        · subst hxy
          simp [lt_irrefl] at hab
          rcases lt_trichotomy x z with hxz | hxz | hxz
          · simp [hxz]
          · subst hxz
            simp [lt_irrefl] at hbc ⊢
            exact ih ys zs hab hbc
          · simp [hxz, lt_asymm hxz] at hbc
        · simp [hxy, lt_asymm hxy] at hab

theorem strLe_total (a b : Str) : strLe a b ∨ strLe b a := by
  unfold strLe
  rcases h : strCmp a b with _ | _ | _
  · left; simp [h]
  · left; simp [h]
  · right
    rw [strCmp_swap, h]
    simp [Ordering.swap]

theorem strLe_trans {a b c : Str} (h1 : strLe a b) (h2 : strLe b c) : strLe a c := by
  unfold strLe at h1 h2 ⊢
  rcases hab : strCmp a b with _ | _ | _
  · rcases hbc : strCmp b c with _ | _ | _
    · simp [strCmp_lt_trans a b c hab hbc]
    · have : b = c := (strCmp_eq_iff b c).mp hbc
      subst this; simp [hab]
    · exact absurd hbc h2
  · have : a = b := (strCmp_eq_iff a b).mp hab
    subst this; exact h2
  · exact absurd hab h1

instance : IsTotal Str strLe := ⟨strLe_total⟩

instance : IsTrans Str strLe := ⟨fun _ _ _ => strLe_trans⟩

theorem candCmp_eq_iff (a b : cand) : candCmp a b = .eq ↔ a = b := by
  constructor
  · intro h
    unfold candCmp at h
    rcases h1 : strCmp a.container b.container with _ | _ | _ <;> rw [h1] at h
    · exact absurd h (by simp)
    · rcases h2 : strCmp a.iid b.iid with _ | _ | _ <;> rw [h2] at h
      · exact absurd h (by simp)
      · cases a; cases b
        simp only [cand.mk.injEq]
        exact ⟨(strCmp_eq_iff _ _).mp h2, (strCmp_eq_iff _ _).mp h1, (strCmp_eq_iff _ _).mp h⟩
      · exact absurd h (by simp)
    · exact absurd h (by simp)
  · rintro rfl
    unfold candCmp
    rw [strCmp_refl, strCmp_refl, strCmp_refl]

theorem candCmp_swap (a b : cand) : candCmp b a = (candCmp a b).swap := by
  unfold candCmp
  rw [strCmp_swap a.container, strCmp_swap a.iid, strCmp_swap a.workdir]
  rcases strCmp a.container b.container with _ | _ | _ <;>
    rcases strCmp a.iid b.iid with _ | _ | _ <;>
      rcases strCmp a.workdir b.workdir with _ | _ | _ <;> rfl

theorem candCmp_lt_trans {a b c : cand}
    (h1 : candCmp a b = .lt) (h2 : candCmp b c = .lt) : candCmp a c = .lt := by
  unfold candCmp at h1 h2 ⊢
  rcases hab : strCmp a.container b.container with _ | _ | _ <;> rw [hab] at h1 <;>
    rcases hbc : strCmp b.container c.container with _ | _ | _ <;> rw [hbc] at h2
  · rw [strCmp_lt_trans _ _ _ hab hbc]
  · rw [(strCmp_eq_iff _ _).mp hbc] at hab; rw [hab]
  · exact absurd h2 (by simp)
  · rw [(strCmp_eq_iff _ _).mp hab] at *; rw [hbc]
  · rw [(strCmp_eq_iff _ _).mp hab] at *
    rw [(strCmp_eq_iff _ _).mp hbc] at *
    rw [strCmp_refl]
    rcases hab2 : strCmp a.iid b.iid with _ | _ | _ <;> rw [hab2] at h1 <;>
      rcases hbc2 : strCmp b.iid c.iid with _ | _ | _ <;> rw [hbc2] at h2
    · rw [strCmp_lt_trans _ _ _ hab2 hbc2]
    · rw [(strCmp_eq_iff _ _).mp hbc2] at hab2; rw [hab2]
    · exact absurd h2 (by simp)
    · rw [(strCmp_eq_iff _ _).mp hab2] at *; rw [hbc2]
    · rw [(strCmp_eq_iff _ _).mp hab2] at *
      rw [(strCmp_eq_iff _ _).mp hbc2] at *
      rw [strCmp_refl]
      exact strCmp_lt_trans _ _ _ h1 h2
    · exact absurd h2 (by simp)
    · exact absurd h1 (by simp)
    · exact absurd h1 (by simp)
    · exact absurd h1 (by simp)
  · exact absurd h2 (by simp)
  · exact absurd h1 (by simp)
  · exact absurd h1 (by simp)
  · exact absurd h1 (by simp)

theorem candLe_total (a b : cand) : candLe a b ∨ candLe b a := by
  unfold candLe
  rcases h : candCmp a b with _ | _ | _
  · left; simp [h]
  · left; simp [h]
  · right; rw [candCmp_swap, h]; simp [Ordering.swap]

theorem candLe_trans {a b c : cand} (h1 : candLe a b) (h2 : candLe b c) : candLe a c := by
  unfold candLe at h1 h2 ⊢
  rcases hab : candCmp a b with _ | _ | _
  · rcases hbc : candCmp b c with _ | _ | _
    · simp [candCmp_lt_trans hab hbc]
    · have : b = c := (candCmp_eq_iff b c).mp hbc
      subst this; simp [hab]
    · exact absurd hbc h2
  · have : a = b := (candCmp_eq_iff a b).mp hab
    subst this; exact h2
  · exact absurd hab h1

instance : IsTotal cand candLe := ⟨candLe_total⟩

instance : IsTrans cand candLe := ⟨fun _ _ _ => candLe_trans⟩

theorem roundStep_length (st : List Nat) (kw : Nat × Nat) : (roundStep st kw).length = 8 := by
  simp [roundStep]

theorem foldl_roundStep_length (l : List (Nat × Nat)) (st : List Nat) (h : st.length = 8) :
    (l.foldl roundStep st).length = 8 := by
  induction l generalizing st with
  | nil => exact h
  | cons kw rest ih => exact ih _ (roundStep_length st kw)

theorem compress_length (H block : List Nat) (h : H.length = 8) :
    (compress H block).length = 8 := by
  unfold compress
  rw [List.length_zipWith, foldl_roundStep_length _ _ h, h]
  rfl

theorem sha256_state_length (blocks : List (List Nat)) (H : List Nat) (h : H.length = 8) :
    (blocks.foldl (fun H b => compress H (bytesToWords b)) H).length = 8 := by
  induction blocks generalizing H with
  | nil => exact h
  | cons b rest ih => exact ih _ (compress_length _ _ h)

theorem flatten_wordToBytes_length (l : List Nat) :
    ((l.map wordToBytes).flatten).length = 4 * l.length := by
  induction l with
  | nil => rfl
  | cons w rest ih =>
    simp only [List.map_cons, List.flatten_cons, List.length_append, ih, List.length_cons]
    simp [wordToBytes]
    omega

theorem sha256_length (msg : List Nat) : (sha256 msg).length = 32 := by
  unfold sha256
  rw [flatten_wordToBytes_length, sha256_state_length _ _ (by rfl)]

theorem hexEncode_length (bs : List Nat) : (hexEncode bs).length = 2 * bs.length := by
  induction bs with
  | nil => rfl
  | cons b rest ih => simp [hexEncode, ih]; omega

/-- C8: `InstanceID` is exactly the first 10 characters of the lowercase hex
encoding of the SHA-256 digest of the UTF-8 bytes of the workdir string; the
digest has 32 bytes, the result always has length 10, and the function is
deterministic (byte-identical inputs give identical outputs). -/
theorem C8_instanceID_sha256_truncation (w : Str) :
    InstanceID w = (hexEncode (sha256 (utf8Encode w))).take 10 ∧
    (sha256 (utf8Encode w)).length = 32 ∧
    (InstanceID w).length = 10 ∧
    ∀ w2 : Str, w = w2 → InstanceID w = InstanceID w2 := by
  refine ⟨rfl, sha256_length _, ?_, ?_⟩
  · unfold InstanceID
    rw [List.length_take, hexEncode_length, sha256_length]
    rfl
  · rintro w2 rfl; rfl

/-- Witness for C8 at the concrete workdir `/a`. -/
theorem C8_witness :
    InstanceID ("/a".toList) = InstanceID ("/a".toList) ∧
    (InstanceID ("/a".toList)).length = 10 :=
  ⟨(C8_instanceID_sha256_truncation ("/a".toList)).2.2.2 ("/a".toList) rfl,
   (C8_instanceID_sha256_truncation ("/a".toList)).2.2.1⟩

set_option maxRecDepth 10000 in
/-- The embedded SHA-256 agrees with the standard empty-message test vector. -/
example : hexEncode (sha256 []) =
    "e3b0c44298fc1c149afbf4c8996fb92427ae41e4649b934ca495991b7852b855".toList := by decide

set_option maxRecDepth 10000 in
/-- The embedded SHA-256 agrees with the standard `"abc"` test vector. -/
example : hexEncode (sha256 (utf8Encode "abc".toList)) =
    "ba7816bf8f01cfea414140de5dae2223b00361a396177a9cb410ff61f20015ad".toList := by decide

set_option maxRecDepth 100000 in
/-- The embedded SHA-256 agrees with the standard two-block test vector
(exercising chunking and padding). -/
example : hexEncode (sha256 (utf8Encode
      "abcdbcdecdefdefgefghfghighijhijkijkljklmklmnlmnomnopnopq".toList)) =
    "248d6a61d20638b8e5c026930c3e6039a33ce45964ff2167f6ecedd419db06c1".toList := by decide

theorem uniqueAt_iff (ids : List Str) (n : Nat) :
    ∀ seen : List Str,
      (uniqueAt ids n seen = true ↔
        ((∀ id ∈ ids, n ≤ id.length) ∧ (ids.map (List.take n)).Nodup ∧
          ∀ id ∈ ids, id.take n ∉ seen)) := by
  induction ids with
  | nil => intro seen; simp [uniqueAt]
  | cons x rest ih =>
    intro seen
    unfold uniqueAt
    by_cases hlen : x.length < n
    · rw [if_pos hlen]
      constructor
      · intro h; exact absurd h (by simp)
      · rintro ⟨hall, -, -⟩
        exact absurd (hall x (by simp)) (by omega)
    · rw [if_neg hlen]
      by_cases hseen : x.take n ∈ seen
      · rw [if_pos hseen]
        constructor
        · intro h; exact absurd h (by simp)
        · rintro ⟨-, -, hnot⟩
          exact absurd hseen (hnot x (by simp))
      · rw [if_neg hseen, ih]
        constructor
        · rintro ⟨h1, h2, h3⟩
          refine ⟨?_, ?_, ?_⟩
          · intro y hy
            rcases List.mem_cons.mp hy with rfl | hy2
            · omega
            · exact h1 y hy2
          · rw [List.map_cons, List.nodup_cons]
            refine ⟨?_, h2⟩
            rw [List.mem_map]
            rintro ⟨y, hy, hye⟩
            exact (h3 y hy) (by rw [hye]; exact List.mem_cons_self _ _)
          · intro y hy
            rcases List.mem_cons.mp hy with rfl | hy2
            · exact hseen
            · intro hmem
              exact (h3 y hy2) (List.mem_cons_of_mem _ hmem)
        · rintro ⟨h1, h2, h3⟩
          rw [List.map_cons, List.nodup_cons, List.mem_map] at h2
          refine ⟨fun y hy => h1 y (List.mem_cons_of_mem _ hy), h2.2, ?_⟩
          intro y hy hmem
          rcases List.mem_cons.mp hmem with he | hm
          · exact h2.1 ⟨y, hy, he⟩
          · exact (h3 y (List.mem_cons_of_mem _ hy)) hm

theorem uniqueAt_iff_ok (ids : List Str) (n : Nat) :
    uniqueAt ids n [] = true ↔ PrefixesOk ids n := by
  rw [uniqueAt_iff]
  unfold PrefixesOk
  simp

theorem uplLoop_eq_zero (ids : List Str) :
    ∀ (k n : Nat), 1 ≤ n → uplLoop ids n k = 0 →
      ∀ m, n ≤ m → m < n + k → uniqueAt ids m [] = false := by
  intro k
  induction k with
  | zero => intro n _ _ m _ hm; omega
  | succ k ih =>
    intro n hn hz m hm1 hm2
    unfold uplLoop at hz
    by_cases h : uniqueAt ids n [] = true
    · rw [if_pos h] at hz
      exact absurd hz (by simp; omega)
    · rw [if_neg h] at hz
      by_cases hmn : m = n
      · subst hmn
        exact Bool.not_eq_true _ ▸ (by simpa using h)
      · exact ih (n + 1) (by omega) hz m (by omega) (by omega)

theorem uplLoop_ne_zero (ids : List Str) :
    ∀ (k n : Nat), 1 ≤ n → uplLoop ids n k ≠ 0 →
      ∃ m : Nat, uplLoop ids n k = (m : Int) ∧ n ≤ m ∧ m < n + k ∧
        uniqueAt ids m [] = true ∧
        ∀ j, n ≤ j → j < m → uniqueAt ids j [] = false := by
  intro k
  induction k with
  | zero => intro n _ hz; exact absurd rfl hz
  | succ k ih =>
    intro n hn hz
    unfold uplLoop at hz ⊢
    by_cases h : uniqueAt ids n [] = true
    · rw [if_pos h] at hz ⊢
      exact ⟨n, rfl, le_refl n, by omega, h, fun j h1 h2 => by omega⟩
    · rw [if_neg h] at hz ⊢
      obtain ⟨m, he, h1, h2, h3, h4⟩ := ih (n + 1) (by omega) hz
      refine ⟨m, he, by omega, by omega, h3, ?_⟩
      intro j hj1 hj2
      by_cases hjn : j = n
      · subst hjn; simpa using h
      · exact h4 j (by omega) hj2

/-- C4: `uniquePrefixLen` returns `0` immediately on invalid bounds; otherwise
a nonzero result is the smallest length in `[min, max]` at which all ids are
long enough and their prefixes are pairwise distinct, and a zero result means
no length in `[min, max]` works (in particular duplicate ids always give 0). -/
theorem C4_uniquePrefixLen_minimal (ids : List Str) (min max : Int) :
    ((min < 1 ∨ max < min) → uniquePrefixLen ids min max = 0) ∧
    (1 ≤ min → min ≤ max →
      (uniquePrefixLen ids min max = 0 →
        ∀ m : Int, min ≤ m → m ≤ max → ¬ PrefixesOk ids m.toNat) ∧
      (uniquePrefixLen ids min max ≠ 0 →
        min ≤ uniquePrefixLen ids min max ∧ uniquePrefixLen ids min max ≤ max ∧
        PrefixesOk ids (uniquePrefixLen ids min max).toNat ∧
        ∀ m : Int, min ≤ m → m < uniquePrefixLen ids min max →
          ¬ PrefixesOk ids m.toNat)) := by
  constructor
  · intro h
    unfold uniquePrefixLen
    rw [if_pos h]
  · intro h1 h2
    have hcond : ¬ (min < 1 ∨ max < min) := by omega
    constructor
    · intro hz m hm1 hm2
      unfold uniquePrefixLen at hz
      rw [if_neg hcond] at hz
      have := uplLoop_eq_zero ids (max.toNat + 1 - min.toNat) min.toNat (by omega) hz
        m.toNat (by omega) (by omega)
      rw [← uniqueAt_iff_ok]
      simp [this]
    · intro hnz
      unfold uniquePrefixLen at hnz ⊢
      rw [if_neg hcond] at hnz ⊢
      obtain ⟨m, he, hm1, hm2, hm3, hm4⟩ :=
        uplLoop_ne_zero ids (max.toNat + 1 - min.toNat) min.toNat (by omega) hnz
      rw [he]
      refine ⟨by omega, by omega, ?_, ?_⟩
      · rw [← uniqueAt_iff_ok]
        simpa using hm3
      · intro j hj1 hj2
        have := hm4 j.toNat (by omega) (by omega)
        rw [← uniqueAt_iff_ok]
        simp [this]

/-- Witness for C4 on the repository's own test data: with ids
`abcd111111`, `abcd222222` and bounds `[4, 10]`, length 4 collides, length 5
works, and `uniquePrefixLen` returns 5. -/
theorem C4_witness :
    uniquePrefixLen ["abcd111111".toList, "abcd222222".toList] 4 10 = 5 ∧
    ¬ PrefixesOk ["abcd111111".toList, "abcd222222".toList] 4 ∧
    PrefixesOk ["abcd111111".toList, "abcd222222".toList] 5 := by
  have hv : uniquePrefixLen ["abcd111111".toList, "abcd222222".toList] 4 10 = 5 := by decide
  have h := (C4_uniquePrefixLen_minimal ["abcd111111".toList, "abcd222222".toList] 4 10).2
    (by norm_num) (by norm_num)
  have h5 := h.2 (by rw [hv]; norm_num)
  refine ⟨hv, ?_, ?_⟩
  · have := h5.2.2.2 4 (by norm_num) (by rw [hv]; norm_num)
    simpa using this
  · have := h5.2.2.1
    rw [hv] at this
    simpa using this

theorem firstDeciding_cons (t : Str) (ms : List ManagedInstance)
    (rest : List (List ManagedInstance)) :
    firstDeciding t (ms :: rest) = step t ms (firstDeciding t rest) := by
  cases ms with
  | nil => rfl
  | cons a tl => cases tl <;> rfl

theorem firstDeciding_skip (t : Str) (rest : List (List ManagedInstance)) :
    firstDeciding t ([] :: rest) = firstDeciding t rest := rfl

theorem firstDeciding_single (t : Str) (m : ManagedInstance)
    (rest : List (List ManagedInstance)) :
    firstDeciding t ([m] :: rest) = .ok m := rfl

theorem firstDeciding_many (t : Str) (ms : List ManagedInstance)
    (rest : List (List ManagedInstance)) (h : 2 ≤ ms.length) :
    firstDeciding t (ms :: rest) = .error (ambiguousTargetErr t ms) := by
  cases ms with
  | nil => simp at h
  | cons a tl =>
    cases tl with
    | nil => simp at h
    | cons b tl2 => rfl

theorem matchTarget_eq_spec (env : OSEnv) (target : Str)
    (instances : List ManagedInstance) (h : trimSpace target ≠ []) :
    matchTarget env target instances = MatchTargetSpec env (trimSpace target) instances := by
  unfold matchTarget MatchTargetSpec
  rw [if_neg h]
  rw [firstDeciding_cons, firstDeciding_cons, firstDeciding_cons, firstDeciding_cons,
    firstDeciding_cons]
  show _ = step _ _ (step _ _ (step _ _ (step _ _ (step _ _ (firstDeciding _ [])))))
  unfold strategyMatches
  by_cases h5 : looksLikePath (trimSpace target)
  · rw [if_pos h5, if_pos h5]
    rfl
  · rw [if_neg h5, if_neg h5]
    rfl

/-- C1: `matchTarget` on a non-blank target coincides with applying the five
strategies in the fixed order, each over the full instance list, the first
strategy with exactly one match winning; in particular a target that is the
container name of exactly one instance resolves to it via strategy 1,
whatever the other instances' ids look like. -/
theorem C1_matchTarget_strategy_order (env : OSEnv) (target : Str)
    (instances : List ManagedInstance) (h : trimSpace target ≠ []) :
    matchTarget env target instances = MatchTargetSpec env (trimSpace target) instances ∧
    ∀ m, instances.filter (fun i => i.Container == trimSpace target) = [m] →
      matchTarget env target instances = .ok m := by
  refine ⟨matchTarget_eq_spec env target instances h, ?_⟩
  intro m hm
  rw [matchTarget_eq_spec env target instances h]
  unfold MatchTargetSpec strategyMatches
  rw [hm, firstDeciding_single]

/-- Witness for C1: `ai-agent-shell-a1b2c3d4e5` equals instance A's container
name (and is unrelated to B), so strategy 1 resolves it to A. -/
theorem C1_witness :
    matchTarget noEnv ("ai-agent-shell-a1b2c3d4e5".toList) [instA, instB] = .ok instA :=
  (C1_matchTarget_strategy_order noEnv ("ai-agent-shell-a1b2c3d4e5".toList) [instA, instB]
    (by decide)).2 instA (by decide)

/-- C3: when the first strategy producing any matches produces two or more,
`matchTarget` stops with the ambiguous-target error over exactly that match
set (no later strategy is consulted); and `formatCandidates` renders a sorted
(by container, then id, then workdir) permutation of the candidates, one line
per candidate in the form `instanceID  containerName  workdir`. -/
theorem C3_matchTarget_ambiguous (env : OSEnv) (target : Str)
    (instances : List ManagedInstance) (k : Nat) (hk1 : 1 ≤ k) (hk5 : k ≤ 5)
    (ht : trimSpace target ≠ [])
    (hearlier : ∀ j, 1 ≤ j → j < k →
      strategyMatches env (trimSpace target) instances j = [])
    (hmany : 2 ≤ (strategyMatches env (trimSpace target) instances k).length) :
    matchTarget env target instances
      = .error (ambiguousTargetErr (trimSpace target)
          (strategyMatches env (trimSpace target) instances k)) ∧
    (∀ candidates : List ManagedInstance,
      (List.insertionSort candLe (candidates.map toCand)).Perm (candidates.map toCand) ∧
      List.Sorted candLe (List.insertionSort candLe (candidates.map toCand)) ∧
      formatCandidates candidates
        = trimNlEnd (((List.insertionSort candLe (candidates.map toCand)).map
            renderCand).flatten)) ∧
    (∀ c : cand, c.iid ≠ [] → c.workdir ≠ [] →
      renderCand c = "  - ".toList ++ c.iid ++ "  ".toList ++ c.container
        ++ "  ".toList ++ c.workdir ++ "\n".toList) := by
  refine ⟨?_, ?_, ?_⟩
  · rw [matchTarget_eq_spec env target instances ht]
    unfold MatchTargetSpec
    interval_cases k
    · rw [firstDeciding_many _ _ _ hmany]
    · rw [hearlier 1 (by norm_num) (by norm_num), firstDeciding_skip,
        firstDeciding_many _ _ _ hmany]
    · rw [hearlier 1 (by norm_num) (by norm_num), hearlier 2 (by norm_num) (by norm_num),
        firstDeciding_skip, firstDeciding_skip, firstDeciding_many _ _ _ hmany]
    · rw [hearlier 1 (by norm_num) (by norm_num), hearlier 2 (by norm_num) (by norm_num),
        hearlier 3 (by norm_num) (by norm_num), firstDeciding_skip, firstDeciding_skip,
        firstDeciding_skip, firstDeciding_many _ _ _ hmany]
    · rw [hearlier 1 (by norm_num) (by norm_num), hearlier 2 (by norm_num) (by norm_num),
        hearlier 3 (by norm_num) (by norm_num), hearlier 4 (by norm_num) (by norm_num),
        firstDeciding_skip, firstDeciding_skip, firstDeciding_skip, firstDeciding_skip,
        firstDeciding_many _ _ _ hmany]
  · intro candidates
    exact ⟨List.perm_insertionSort candLe _, List.sorted_insertionSort candLe _, rfl⟩
  · intro c h1 h2
    simp only [renderCand, if_neg h1, if_neg h2, List.append_assoc]

/-- Witness for C3: target `a1b2` is an id-prefix of both A and B (strategies
1 and 2 match nothing), so strategy 3 is terminally ambiguous. -/
theorem C3_witness :
    matchTarget noEnv ("a1b2".toList) [instA, instB]
      = .error (ambiguousTargetErr (trimSpace "a1b2".toList)
          (strategyMatches noEnv (trimSpace "a1b2".toList) [instA, instB] 3)) := by
  refine (C3_matchTarget_ambiguous noEnv ("a1b2".toList) [instA, instB] 3
    (by norm_num) (by norm_num) (by decide) ?_ (by decide)).1
  intro j h1 h2
  interval_cases j <;> decide

/-- C5: when strategies 1–4 all match nothing, strategy 5 runs exactly when
the trimmed target looks like a path: a non-path-like target yields the
no-match error even if some instance's workdir equals it, a path-like target
compares workdirs against the canonicalized target, and canonicalization
failure falls back to the literal target string. -/
theorem C5_workdir_strategy_gating (env : OSEnv) (target : Str)
    (instances : List ManagedInstance) (ht : trimSpace target ≠ [])
    (hempty : ∀ j, 1 ≤ j → j ≤ 4 →
      strategyMatches env (trimSpace target) instances j = []) :
    (looksLikePath (trimSpace target) = false →
      matchTarget env target instances = .error (noMatchMsg (trimSpace target))) ∧
    (looksLikePath (trimSpace target) = true →
      matchTarget env target instances
        = step (trimSpace target)
            (instances.filter fun i => i.Workdir == targetWd env (trimSpace target))
            (.error (noMatchMsg (trimSpace target)))) ∧
    (∀ w, CanonicalWorkdir env (trimSpace target) = .ok w →
      targetWd env (trimSpace target) = w) ∧
    (∀ e, CanonicalWorkdir env (trimSpace target) = .error e →
      targetWd env (trimSpace target) = trimSpace target) := by
  have hbase : matchTarget env target instances
      = firstDeciding (trimSpace target)
          [strategyMatches env (trimSpace target) instances 5] := by
    rw [matchTarget_eq_spec env target instances ht]
    unfold MatchTargetSpec
    rw [hempty 1 (by norm_num) (by norm_num), hempty 2 (by norm_num) (by norm_num),
      hempty 3 (by norm_num) (by norm_num), hempty 4 (by norm_num) (by norm_num),
      firstDeciding_skip, firstDeciding_skip, firstDeciding_skip, firstDeciding_skip]
  refine ⟨?_, ?_, ?_, ?_⟩
  · intro h5
    rw [hbase]
    unfold strategyMatches
    rw [h5]
    rfl
  · intro h5
    rw [hbase]
    unfold strategyMatches
    rw [if_pos h5, firstDeciding_cons]
    rfl
  · intro w hw
    unfold targetWd
    rw [hw]
  · intro e he
    unfold targetWd
    rw [he]

/-- Witness for C5: `/a` is path-like, matches no name or id, its
canonicalization fails in `noEnv`, and the literal fallback selects A's
workdir. -/
theorem C5_witness :
    matchTarget noEnv ("/a".toList) [instA, instB]
      = step (trimSpace "/a".toList)
          ([instA, instB].filter fun i => i.Workdir == targetWd noEnv (trimSpace "/a".toList))
          (.error (noMatchMsg (trimSpace "/a".toList))) := by
  refine ((C5_workdir_strategy_gating noEnv ("/a".toList) [instA, instB]
    (by decide) ?_).2.1 (by decide))
  intro j h1 h2
  interval_cases j <;> decide

theorem dropWhile_append_all {p : Char → Bool} {w s : Str}
    (hw : ∀ c ∈ w, p c = true) :
    (w ++ s).dropWhile p = s.dropWhile p := by
  induction w with
  | nil => rfl
  | cons c cs ih =>
    rw [List.cons_append, List.dropWhile_cons]
    rw [hw c (List.mem_cons_self _ _)]
    simp only [if_true]
    exact ih (fun x hx => hw x (List.mem_cons_of_mem _ hx))

theorem dropWhile_append_right_all {p : Char → Bool} {s w : Str}
    (hw : ∀ c ∈ w, p c = true) :
    (s ++ w).dropWhile p = if s.dropWhile p = [] then [] else s.dropWhile p ++ w := by
  induction s with
  | nil =>
    simp only [List.nil_append, List.dropWhile_nil, if_pos rfl]
    induction w with
    | nil => rfl
    | cons c cs ih =>
      rw [List.dropWhile_cons, hw c (List.mem_cons_self _ _)]
      simp only [if_true]
      exact ih (fun x hx => hw x (List.mem_cons_of_mem _ hx))
  | cons c cs ih =>
    rw [List.cons_append, List.dropWhile_cons, List.dropWhile_cons]
    by_cases hc : p c = true
    · rw [hc]
      simp only [if_true]
      exact ih
    · rw [Bool.not_eq_true] at hc
      rw [hc]
      simp

theorem trimSpace_prepend_all {w s : Str} (hw : ∀ c ∈ w, goIsSpace c = true) :
    trimSpace (w ++ s) = trimSpace s := by
  unfold trimSpace
  rw [dropWhile_append_all hw]

theorem trimSpace_append_all {s w : Str} (hw : ∀ c ∈ w, goIsSpace c = true) :
    trimSpace (s ++ w) = trimSpace s := by
  unfold trimSpace
  rw [dropWhile_append_right_all hw]
  by_cases h : s.dropWhile goIsSpace = []
  · rw [if_pos h, h]
  · rw [if_neg h, List.reverse_append]
    rw [dropWhile_append_all (fun c hc => hw c (List.mem_reverse.mp hc))]

theorem trimSpace_all_space {w : Str} (hw : ∀ c ∈ w, goIsSpace c = true) :
    trimSpace w = [] := by
  have := trimSpace_prepend_all (s := []) hw
  rw [List.append_nil] at this
  rw [this]
  rfl

theorem matchTarget_trim_congr (env : OSEnv) (instances : List ManagedInstance)
    {a b : Str} (h : trimSpace a = trimSpace b) :
    matchTarget env a instances = matchTarget env b instances := by
  unfold matchTarget
  rw [h]

/-- C9: `matchTarget` trims the target before matching — an all-whitespace
target is rejected exactly like the empty target, and surrounding any target
with whitespace never changes the result. -/
theorem C9_matchTarget_trims (env : OSEnv) (instances : List ManagedInstance) :
    (∀ w : Str, (∀ c ∈ w, goIsSpace c = true) →
      matchTarget env w instances = .error emptyTargetMsg ∧
      matchTarget env w instances = matchTarget env [] instances) ∧
    (∀ t w1 w2 : Str, (∀ c ∈ w1, goIsSpace c = true) →
      (∀ c ∈ w2, goIsSpace c = true) →
      matchTarget env (w1 ++ t ++ w2) instances = matchTarget env t instances) := by
  constructor
  · intro w hw
    have h0 : trimSpace w = [] := trimSpace_all_space hw
    constructor
    · unfold matchTarget
      rw [h0]
      rfl
    · exact matchTarget_trim_congr env instances (by rw [h0]; rfl)
  · intro t w1 w2 hw1 hw2
    refine matchTarget_trim_congr env instances ?_
    rw [trimSpace_append_all hw2, trimSpace_prepend_all hw1]

/-- Witness for C9: wrapping `a1b2c3` in spaces and tabs does not change the
result, and a whitespace-only target is rejected as empty. -/
theorem C9_witness :
    (matchTarget noEnv ("  \t".toList) [instA, instB] = .error emptyTargetMsg) ∧
    matchTarget noEnv (" ".toList ++ "a1b2c3".toList ++ "\t ".toList) [instA, instB]
      = matchTarget noEnv ("a1b2c3".toList) [instA, instB] :=
  ⟨((C9_matchTarget_trims noEnv [instA, instB]).1 ("  \t".toList) (by decide)).1,
   (C9_matchTarget_trims noEnv [instA, instB]).2 ("a1b2c3".toList) (" ".toList)
     ("\t ".toList) (by decide) (by decide)⟩

theorem requireManaged_notManaged (d : Docker) (name expected : Str)
    (info : InspectContainer) (hins : d.inspectContainer name = .ok info)
    (habs : info.Config.Labels = none ∨
      lookupLabel info.Config.Labels LabelManaged ≠ "true".toList) :
    requireManaged d name expected = .error (notManagedMsg name) := by
  simp only [requireManaged, hins]
  have hcond : (info.Config.Labels.isNone
      || !(lookupLabel info.Config.Labels LabelManaged == "true".toList)) = true := by
    rcases habs with h | h
    · rw [h]; rfl
    · have h2 : (lookupLabel info.Config.Labels LabelManaged == "true".toList) = false :=
        beq_eq_false_iff_ne.mpr h
      rw [h2]
      simp
  rw [if_pos hcond]

theorem requireManaged_managed (d : Docker) (name expected : Str)
    (info : InspectContainer) (hins : d.inspectContainer name = .ok info)
    (hl : lookupLabel info.Config.Labels LabelManaged = "true".toList) :
    requireManaged d name expected
      = if info.Workdir = expected then .ok ()
        else .error (mismatchMsg name expected info.Workdir) := by
  simp only [requireManaged, hins]
  obtain ⟨l, hli⟩ : ∃ l, info.Config.Labels = some l := by
    cases h : info.Config.Labels with
    | none => rw [h] at hl; exact absurd hl (by decide)
    | some l => exact ⟨l, rfl⟩
  rw [hli] at hl
  by_cases hwd : info.Workdir = expected
  · simp [hli, hl, hwd]
  · simp [hli, hl, hwd]

/-- C2: given a successful inspection, `requireManaged` refuses with the
not-managed message whenever the managed label is absent or not exactly
`"true"` (independently of the workdir); with the label `"true"` but a
mismatched discovered workdir it refuses with a mismatch message containing
both the expected and the discovered workdir; and it succeeds exactly when
both checks pass. -/
theorem C2_requireManaged_guard (d : Docker) (name expected : Str)
    (info : InspectContainer) (hins : d.inspectContainer name = .ok info) :
    ((info.Config.Labels = none ∨
        lookupLabel info.Config.Labels LabelManaged ≠ "true".toList) →
      requireManaged d name expected = .error (notManagedMsg name)) ∧
    (lookupLabel info.Config.Labels LabelManaged = "true".toList →
      (info.Workdir ≠ expected →
        requireManaged d name expected
          = .error (mismatchMsg name expected info.Workdir) ∧
        expected <:+: mismatchMsg name expected info.Workdir ∧
        info.Workdir <:+: mismatchMsg name expected info.Workdir) ∧
      (info.Workdir = expected → requireManaged d name expected = .ok ())) := by
  refine ⟨requireManaged_notManaged d name expected info hins, ?_⟩
  intro hl
  constructor
  · intro hwd
    refine ⟨?_, ?_, ?_⟩
    · rw [requireManaged_managed d name expected info hins hl, if_neg hwd]
    · exact ⟨"refusing: container ".toList ++ goQuote name
        ++ " workdir mismatch\nexpected: ".toList,
        "\nfound:    ".toList ++ info.Workdir,
        by simp [mismatchMsg, List.append_assoc]⟩
    · exact ⟨"refusing: container ".toList ++ goQuote name
        ++ " workdir mismatch\nexpected: ".toList ++ expected
        ++ "\nfound:    ".toList, [],
        by simp [mismatchMsg, List.append_assoc]⟩
  · intro hwd
    rw [requireManaged_managed d name expected info hins hl, if_pos hwd]

/-- Witness for C2: container `c1` has workdir `/a`; the guard refuses the
expected workdir `/b` with a mismatch and accepts `/a`. -/
theorem C2_witness :
    requireManaged dockerA ("c1".toList) ("/b".toList)
      = .error (mismatchMsg ("c1".toList) ("/b".toList) (infoA.Workdir)) ∧
    requireManaged dockerA ("c1".toList) ("/a".toList) = .ok () :=
  ⟨(((C2_requireManaged_guard dockerA ("c1".toList) ("/b".toList) infoA rfl).2
      (by decide)).1 (by decide)).1,
   ((C2_requireManaged_guard dockerA ("c1".toList) ("/a".toList) infoA rfl).2
      (by decide)).2 (by decide)⟩

/-- C10: a container with no `bind`-type `/work` mount has the empty string as
its discovered workdir, so (with the managed label `"true"` and a non-empty
expected workdir) `requireManaged` refuses it with a workdir mismatch, and the
lister records it with an empty `Workdir` field. -/
theorem C10_missing_work_mount (info : InspectContainer)
    (hm : ∀ m ∈ info.Mounts,
      ¬(m.Destination = "/work".toList ∧ m.mountType = "bind".toList)) :
    info.Workdir = [] ∧
    (∀ (d : Docker) (name expected : Str), d.inspectContainer name = .ok info →
      lookupLabel info.Config.Labels LabelManaged = "true".toList → expected ≠ [] →
      requireManaged d name expected = .error (mismatchMsg name expected [])) ∧
    ∀ name, (mkManagedInstance name info).Workdir = [] := by
  have hwd : info.Workdir = [] := by
    unfold InspectContainer.Workdir
    have hfind : info.Mounts.find?
        (fun m => m.Destination == "/work".toList && m.mountType == "bind".toList)
        = none := by
      rw [List.find?_eq_none]
      intro m hmem
      have := hm m hmem
      simp only [Bool.and_eq_true, beq_iff_eq]
      exact fun h => this ⟨h.1, h.2⟩
    rw [hfind]
  refine ⟨hwd, ?_, fun name => hwd⟩
  intro d name expected hins hl hne
  rw [requireManaged_managed d name expected info hins hl, hwd,
    if_neg (fun h => hne h.symm)]

/-- Witness for C10: container `c9`'s only mount is a named volume at `/home`,
so its discovered workdir is empty and the guard refuses the expected workdir
`/x`. -/
theorem C10_witness :
    infoNoWork.Workdir = [] ∧
    requireManaged dockerC ("c9".toList) ("/x".toList)
      = .error (mismatchMsg ("c9".toList) ("/x".toList) []) ∧
    (mkManagedInstance ("c9".toList) infoNoWork).Workdir = [] :=
  ⟨(C10_missing_work_mount infoNoWork (by decide)).1,
   (C10_missing_work_mount infoNoWork (by decide)).2.1 dockerC ("c9".toList)
     ("/x".toList) rfl (by decide) (by decide),
   (C10_missing_work_mount infoNoWork (by decide)).2.2 ("c9".toList)⟩

theorem listLoop_eq_filterMap (d : Docker) :
    ∀ l : List Str, listLoop d l = l.filterMap (inspectEntry d) := by
  intro l
  induction l with
  | nil => rfl
  | cons n rest ih =>
    unfold listLoop
    cases h : d.inspectContainer n with
    | error e => simp [List.filterMap_cons, inspectEntry, h, ih]
    | ok info => simp [List.filterMap_cons, inspectEntry, h, ih]

theorem map_container_listLoop (d : Docker) :
    ∀ l : List Str, (listLoop d l).map ManagedInstance.Container
      = l.filter (fun n => (inspectEntry d n).isSome) := by
  intro l
  induction l with
  | nil => rfl
  | cons n rest ih =>
    unfold listLoop
    cases h : d.inspectContainer n with
    | error e => simp [List.filter_cons, inspectEntry, h, ih]
    | ok info => simp [List.filter_cons, inspectEntry, h, ih, mkManagedInstance]

/-- C7: when the name query succeeds, `listManagedInstances` returns exactly
the successfully inspected containers of the name list (inspection failures
are skipped without failing the listing), in container-name sorted order. -/
theorem C7_listManaged_sorted_skips (d : Docker) (names : List Str)
    (h : d.psNamesByLabel LabelManaged "true".toList = .ok names) :
    listManagedInstances d = .ok ((sortStrings names).filterMap (inspectEntry d)) ∧
    List.Sorted strLe (((sortStrings names).filterMap (inspectEntry d)).map
      ManagedInstance.Container) := by
  constructor
  · unfold listManagedInstances
    rw [h]
    show Except.ok (listLoop d (sortStrings names)) = _
    rw [listLoop_eq_filterMap]
  · rw [← listLoop_eq_filterMap, map_container_listLoop]
    have hs : List.Sorted strLe (sortStrings names) :=
      List.sorted_insertionSort strLe names
    exact hs.sublist (List.filter_sublist _)

/-- Witness for C7: runtime `dockerB` lists `c2` then `c1`; `c2` fails to
inspect and is skipped, and the output is sorted by name. -/
theorem C7_witness :
    listManagedInstances dockerB
      = .ok ((sortStrings ["c2".toList, "c1".toList]).filterMap (inspectEntry dockerB)) ∧
    List.Sorted strLe (((sortStrings ["c2".toList, "c1".toList]).filterMap
      (inspectEntry dockerB)).map ManagedInstance.Container) :=
  C7_listManaged_sorted_skips dockerB ["c2".toList, "c1".toList] rfl

/-- Counterexample to C6 as stated: in `c6Env` the home lookup fails, yet
`CanonicalWorkdir` on the `~`-prefixed input `~/proj` succeeds (a directory
literally named `~/proj` exists under the cwd) instead of returning an error
arising from the home-lookup failure. -/
theorem C6_counterexample :
    c6Env.userHomeDir = .error ("no home directory".toList) ∧
    List.isPrefixOf ("~/".toList) ("~/proj".toList) = true ∧
    CanonicalWorkdir c6Env ("~/proj".toList) = .ok ("/cwd/~/proj".toList) :=
  ⟨rfl, by decide, rfl⟩

/-- C6 (amended): when the home-directory lookup fails, `expandUser` returns
the input unchanged, and `CanonicalWorkdir` on any non-empty input (including
those beginning with `~`) continues with the unexpanded path through
abs/symlink/stat resolution rather than propagating the home-lookup failure. -/
theorem C6_amended_home_failure (env : OSEnv) (p e : Str)
    (hhome : env.userHomeDir = .error e) (hp : p ≠ []) :
    expandUser env p = p ∧ CanonicalWorkdir env p = canonFrom env p := by
  have hexp : expandUser env p = p := by
    unfold expandUser
    rw [if_neg hp]
    by_cases hc : (p = "~".toList ∨ (List.isPrefixOf "~/".toList p : Bool) = true)
    · rw [if_pos hc, hhome]
    · rw [if_neg hc]
  refine ⟨hexp, ?_⟩
  unfold CanonicalWorkdir
  rw [if_neg hp]
  show canonFrom env (expandUser env p) = canonFrom env p
  rw [hexp]

/-- Witness for the amended C6 at the concrete environment `c6Env` and input
`~/proj`. -/
theorem C6_witness :
    expandUser c6Env ("~/proj".toList) = "~/proj".toList ∧
    CanonicalWorkdir c6Env ("~/proj".toList) = canonFrom c6Env ("~/proj".toList) :=
  C6_amended_home_failure c6Env ("~/proj".toList) ("no home directory".toList)
    rfl (by decide)

end AiShell
